import Mathlib

/-!
Verification development for the TemporaryMail backend (Express server
proxying the mail.tm disposable-email provider).

The definitions below are a shallow embedding of the server source:

* upstream client `mailTmRequest` (timeout/retry/backoff policy),
* domain catalog `getAvailableDomains` (10-minute cache with graceful
  degradation),
* domain entry normalization `normalizeDomainEntry` / `listDomainStrings`,
* round-robin domain selection `pickMailTmDomain`,
* the preferred-domain reordering pass and the domain trial loop of
  `provisionMailboxWithMailTm`,
* inbox retrieval `fetchMailboxMessages`,
* the mailbox registry (`ensureMailbox`, the extend route,
  `buildMailboxResponse`).

Upstream I/O is modelled by explicit oracles: a function giving the outcome
of each HTTP attempt.  Time is modelled in milliseconds as `Nat`.
Randomness (local parts, passwords) is modelled by generator oracles.
-/

/-! ### JavaScript value helpers -/

/-- JS truthiness for a possibly-absent string: the empty string is falsy,
so `s || t` skips both `undefined` and `""`. -/
def strTruthy : Option String → Option String
  | none => none
  | some s => if s = "" then none else some s

/-- JS `a || b` on possibly-absent strings (empty string counts as falsy). -/
def jsOrStr (a b : Option String) : Option String :=
  (strTruthy a).or b

/-- JS `String.prototype.includes`: substring test, via `splitOn` (the
pattern occurs in `s` iff splitting on it yields more than one piece). -/
def jsIncludes (s pat : String) : Bool :=
  (s.splitOn pat).length != 1

/-- JS optional-chained `o?.includes(pat)` where `o` may be absent. -/
def optIncludes (o : Option String) (pat : String) : Bool :=
  match o with
  | none => false
  | some s => jsIncludes s pat

/-- JS `toLowerCase` on one character (the ASCII range, which covers the
domain strings this server handles). -/
def lowerChar (c : Char) : Char :=
  if 65 ≤ c.toNat ∧ c.toNat ≤ 90 then Char.ofNat (c.toNat + 32) else c

/-- JS `String.prototype.toLowerCase`. -/
def strLower (s : String) : String := String.mk (s.data.map lowerChar)

/-! ### Upstream client: `mailTmRequest`

One HTTP attempt either produces a response (status plus parsed JSON body,
`none` when the body was not valid JSON) or throws an exception carrying a
`name` (`fetch` signals timeouts as `AbortError` and network failures as
`TypeError`).  An oracle `Nat → FetchOutcome` gives the outcome of attempt
number `i` (the source passes `retries` as the attempt counter). -/

/-- Outcome of one `fetch` attempt against the provider. -/
inductive FetchOutcome
  | success (status : Nat) (data : Option String)
  | failure (name : String)
deriving DecidableEq

/-- The error a `mailTmRequest` call can reject with: either an `Error`
object built from a non-2xx response (it carries `error.status = response
.status`), or a propagated exception that has a `name` but no `status`
field at all. -/
inductive ReqError
  | httpError (status : Nat) (data : Option String)
  | fetchError (name : String)
deriving DecidableEq

/-- Whether the rejection value carries a `status` field (only the `Error`
objects built from HTTP responses do; a propagated `AbortError` does not). -/
def errHasStatus : ReqError → Bool
  | .httpError _ _ => true
  | .fetchError _ => false

/-- Exception names the catch block retries on (timeout / network). -/
def retriableName (name : String) : Bool :=
  name == "AbortError" || name == "TimeoutError" || name == "TypeError"

/-- Exponential backoff before a retry: `min(1000 * 2^retries, 5000)` ms. -/
def backoffDelay (retries : Nat) : Nat :=
  min (1000 * 2 ^ retries) 5000

/-- `response.ok`: HTTP status in the 2xx range. -/
def respOk (status : Nat) : Bool :=
  200 ≤ status && status ≤ 299

/-- The `mailTmRequest` recursion.  Returns the settled value together with
the list of backoff delays slept before each retry, in order.  The `fuel`
argument bounds the recursion structurally; the caller passes
`maxRetries + 1`, which the guard `retries < maxRetries` never exhausts
(the fuel-zero branch settles the current outcome, as the guard would). -/
def mailTmRequestAux (oracle : Nat → FetchOutcome) (maxRetries : Nat) :
    Nat → Nat → Except ReqError (Option String) × List Nat
  | 0, retries =>
    (match oracle retries with
     | .success status data =>
       if respOk status then .ok data else .error (.httpError status data)
     | .failure name => .error (.fetchError name), [])
  | fuel + 1, retries =>
    match oracle retries with
    | .success status data =>
      if respOk status then (.ok data, [])
      else if 500 ≤ status ∧ retries < maxRetries then
        let r := mailTmRequestAux oracle maxRetries fuel (retries + 1)
        (r.1, backoffDelay retries :: r.2)
      else (.error (.httpError status data), [])
    | .failure name =>
      if retriableName name = true ∧ retries < maxRetries then
        let r := mailTmRequestAux oracle maxRetries fuel (retries + 1)
        (r.1, backoffDelay retries :: r.2)
      else (.error (.fetchError name), [])

/-- `mailTmRequest` with the source defaults: `retries = 0`,
`maxRetries = 3`. -/
def mailTmRequest (oracle : Nat → FetchOutcome) :
    Except ReqError (Option String) × List Nat :=
  mailTmRequestAux oracle 3 4 0

/-- Settling an outcome without retrying: 2xx resolves with the parsed
body, any other response rejects with an `Error` carrying that status, a
thrown exception is rethrown as-is. -/
def settleOutcome : FetchOutcome → Except ReqError (Option String)
  | .success status data =>
    if respOk status then .ok data else .error (.httpError status data)
  | .failure name => .error (.fetchError name)

/-- An outcome the client retries: any 5xx response, or an exception whose
name marks a timeout / network failure. -/
def retriableOutcome : FetchOutcome → Bool
  | .success status _ => 500 ≤ status
  | .failure name => retriableName name

/-- One-step characterization of the retry loop: a retry (with its backoff
delay) happens exactly on a retriable outcome while budget remains;
everything else settles immediately. -/
theorem mailTmRequestAux_step (oracle : Nat → FetchOutcome)
    (maxRetries fuel retries : Nat) :
    mailTmRequestAux oracle maxRetries (fuel + 1) retries =
      if retriableOutcome (oracle retries) = true ∧ retries < maxRetries then
        ((mailTmRequestAux oracle maxRetries fuel (retries + 1)).1,
          backoffDelay retries ::
            (mailTmRequestAux oracle maxRetries fuel (retries + 1)).2)
      else (settleOutcome (oracle retries), []) := by
  rcases h : oracle retries with ⟨status, data⟩ | ⟨name⟩
  · by_cases hok : respOk status = true
    · have h5 : ¬ (500 ≤ status) := by
        simp only [respOk, Bool.and_eq_true, decide_eq_true_eq] at hok
        omega
      simp [mailTmRequestAux, h, hok, retriableOutcome, settleOutcome, h5]
    · by_cases h5 : 500 ≤ status ∧ retries < maxRetries
      · simp [mailTmRequestAux, h, hok, retriableOutcome, settleOutcome, h5,
          h5.1, h5.2]
      · simp [mailTmRequestAux, h, retriableOutcome, settleOutcome, hok, h5]
  · by_cases hr : retriableName name = true ∧ retries < maxRetries
    · simp [mailTmRequestAux, h, retriableOutcome, settleOutcome, hr, hr.1, hr.2]
    · simp [mailTmRequestAux, h, retriableOutcome, settleOutcome, hr]

/-- C7: for every upstream request, a retry is issued exactly when the
outcome is a 5xx response or a network/timeout failure and fewer than 3
retries have been used, with a delay of `min(1000 * 2^attempt, 5000)` ms
slept before each retry; a non-retriable outcome (in particular any 4xx
response) settles immediately and is never retried at this layer. -/
theorem mailTm_retry_policy_c7 :
    (∀ (oracle : Nat → FetchOutcome) (fuel retries : Nat),
      mailTmRequestAux oracle 3 (fuel + 1) retries =
        if retriableOutcome (oracle retries) = true ∧ retries < 3 then
          ((mailTmRequestAux oracle 3 fuel (retries + 1)).1,
            min (1000 * 2 ^ retries) 5000 ::
              (mailTmRequestAux oracle 3 fuel (retries + 1)).2)
        else (settleOutcome (oracle retries), [])) ∧
    (∀ (oracle : Nat → FetchOutcome) (fuel retries status : Nat)
        (data : Option String),
      oracle retries = .success status data → 400 ≤ status → status < 500 →
      mailTmRequestAux oracle 3 (fuel + 1) retries =
        (.error (.httpError status data), [])) := by
  constructor
  · intro oracle fuel retries
    simpa [backoffDelay] using mailTmRequestAux_step oracle 3 fuel retries
  · intro oracle fuel retries status data h h4 h5
    have hnr : ¬ (retriableOutcome (oracle retries) = true ∧ retries < 3) := by
      rw [h]
      simp only [retriableOutcome, decide_eq_true_eq]
      omega
    have hnok : ¬ (respOk status = true) := by
      simp only [respOk, Bool.and_eq_true, decide_eq_true_eq]
      omega
    rw [mailTmRequestAux_step, if_neg hnr, h]
    simp only [settleOutcome, if_neg hnok]

/-- Concrete input for the C7 witness: a request whose first attempt gets
an HTTP 404 response settles at once with that status and sleeps no
backoff delay. -/
theorem mailTm_retry_policy_c7_witness :
    mailTmRequestAux (fun _ => .success 404 none) 3 4 0 =
      (.error (.httpError 404 none), []) :=
  mailTm_retry_policy_c7.2 (fun _ => .success 404 none) 3 0 404 none rfl
    (by decide) (by decide)

/-- Oracle on which every attempt exceeds the time ceiling: the abort
controller fires and `fetch` rejects with an `AbortError`. -/
def allTimeoutsOracle : Nat → FetchOutcome := fun _ => .failure "AbortError"

/-- C3 counterexample: when every attempt times out, the call (after the 3
retries of its budget, with backoff 1000/2000/4000 ms) rejects with the
propagated `AbortError` itself, an exception that carries no `status`
field at all — not with an `UpstreamError` whose `status` is `"timeout"`. -/
theorem mailTm_timeout_c3_counterexample :
    mailTmRequest allTimeoutsOracle =
      (.error (.fetchError "AbortError"), [1000, 2000, 4000]) ∧
    errHasStatus (.fetchError "AbortError") = false := by
  constructor
  · simp [mailTmRequest, mailTmRequestAux, allTimeoutsOracle, retriableName,
      backoffDelay]
  · rfl

/-- C3 (amended): for every request whose attempts all exceed the time
ceiling, once the retry budget is spent the call fails by rethrowing the
abort error (name `"AbortError"`), which has no `status` field. -/
theorem mailTm_timeout_propagates_c3 (oracle : Nat → FetchOutcome)
    (h : ∀ i, oracle i = .failure "AbortError") :
    mailTmRequest oracle =
      (.error (.fetchError "AbortError"), [1000, 2000, 4000]) ∧
    errHasStatus (.fetchError "AbortError") = false := by
  constructor
  · simp [mailTmRequest, mailTmRequestAux, h, retriableName, backoffDelay]
  · rfl

/-- Witness for C3 at the concrete all-timeouts oracle. -/
theorem mailTm_timeout_propagates_c3_witness :
    mailTmRequest (fun _ => .failure "AbortError") =
      (.error (.fetchError "AbortError"), [1000, 2000, 4000]) ∧
    errHasStatus (.fetchError "AbortError") = false :=
  mailTm_timeout_propagates_c3 (fun _ => .failure "AbortError") (fun _ => rfl)

/-! ### Domain catalog -/

/-- Cache TTL: 10 minutes, in milliseconds. -/
def DOMAIN_CACHE_TTL_MS : Nat := 10 * 60 * 1000

/-- One entry of the provider's `/domains` payload: a bare string, a
structured object (with possibly-absent `domain`, `name`, `address`
fields), or a nullish value. -/
inductive DomainEntry
  | str (s : String)
  | obj (domain name address : Option String)
  | nullish
deriving DecidableEq

/-- `normalizeDomainEntry`: nullish entries give `null`; a bare string is
returned as-is; an object yields `entry.domain || entry.name ||
entry.address || null`. -/
def normalizeDomainEntry : DomainEntry → Option String
  | .nullish => none
  | .str s => some s
  | .obj domain name address =>
    (strTruthy domain).or ((strTruthy name).or (strTruthy address))

/-- `listDomainStrings`: map each entry through `normalizeDomainEntry` and
keep only the string results. -/
def listDomainStrings (entries : List DomainEntry) : List String :=
  (entries.map normalizeDomainEntry).filterMap id

/-- The module-level domain cache `cachedDomains`. -/
structure DomainCache where
  expiresAt : Nat
  items : List DomainEntry
deriving DecidableEq

/-- Parsed body of a successful `/domains` request; the rotation code reads
`payload?.["hydra:member"] || []`. -/
structure DomainsPayload where
  hydraMember : Option (List DomainEntry)

/-- `getAvailableDomains`, one call: given the current cache, the current
time and the (oracle) result the upstream `/domains` request would settle
with, return the domain list together with the cache left behind.  A fresh
non-empty cache short-circuits; otherwise a successful fetch repopulates
the cache; a failed fetch falls back to any non-empty prior cache and only
propagates the error when there is none. -/
def getAvailableDomains (cache : DomainCache) (now : Nat)
    (fetched : Except ReqError (Option DomainsPayload)) :
    Except ReqError (List DomainEntry × DomainCache) :=
  if cache.items.length ≠ 0 ∧ now < cache.expiresAt then
    .ok (cache.items, cache)
  else
    match fetched with
    | .ok payload =>
      let domains := (payload.bind (·.hydraMember)).getD []
      .ok (domains, { items := domains, expiresAt := now + DOMAIN_CACHE_TTL_MS })
    | .error e =>
      if cache.items.length ≠ 0 then .ok (cache.items, cache) else .error e

/-- C4: the domain-catalog fetch raises iff the upstream call fails and no
(non-empty) cache has ever been populated; with a non-empty prior cache a
failed refresh returns the cached items — whatever the cache's staleness —
and a successful fetch never raises. -/
theorem getAvailableDomains_cache_c4 (cache : DomainCache) (now : Nat) :
    (∀ e : ReqError,
      getAvailableDomains cache now (.error e) =
        if cache.items.length = 0 then .error e
        else .ok (cache.items, cache)) ∧
    (∀ payload : Option DomainsPayload,
      (getAvailableDomains cache now (.ok payload)).isOk = true) := by
  constructor
  · intro e
    by_cases hempty : cache.items.length = 0
    · simp [getAvailableDomains, hempty]
    · by_cases hfresh : now < cache.expiresAt
      · simp [getAvailableDomains, hempty, hfresh]
      · simp [getAvailableDomains, hempty, hfresh]
  · intro payload
    unfold getAvailableDomains
    by_cases hc : cache.items.length ≠ 0 ∧ now < cache.expiresAt
    · rw [if_pos hc]
      rfl
    · rw [if_neg hc]
      rfl

/-! ### Domain rotation: `pickMailTmDomain` -/

/-- The fixed preferred-domain allow-list (`DEFAULT_PREFERRED_DOMAINS`). -/
def DEFAULT_PREFERRED_DOMAINS : List String :=
  ["comfythings.com", "elyxstore.com", "ketoblisslabs.com", "ekii.de",
   "asia-mail.com", "doer.sbs", "badfist.com", "besenica.com", "mail.tm"]

/-- Errors `pickMailTmDomain` can throw. -/
inductive PickError
  | noDomains
  | emptyDomainList
  | unknownDomain (available : List String)
deriving DecidableEq

/-- `availablePreferred`: the catalog strings whose lowercase form is in
the fixed preferred allow-list, in catalog order. -/
def availablePreferred (domains : List DomainEntry) : List String :=
  (listDomainStrings domains).filter
    (fun d => DEFAULT_PREFERRED_DOMAINS.contains (strLower d))

/-- `pickMailTmDomain`, acting on the already-fetched entry list and the
shared rotation cursor (`domainRotationIndex`), returning the selected
domain together with the cursor value left behind.  An explicit preferred
domain is matched case-insensitively without touching the cursor; otherwise
one round-robin pick is taken from the available preferred subset if it is
non-empty, else from the full catalog list. -/
def pickMailTmDomain (domains : List DomainEntry) (preferredDomain : Option String)
    (cursor : Nat) : Except PickError (String × Nat) :=
  if domains.length = 0 then .error .noDomains
  else if h0 : (listDomainStrings domains).length = 0 then .error .emptyDomainList
  else
    match preferredDomain with
    | some preferred =>
      match (listDomainStrings domains).find?
          (fun d => strLower d == strLower preferred) with
      | some m => .ok (m, cursor)
      | none => .error (.unknownDomain (listDomainStrings domains))
    | none =>
      if h1 : 0 < (availablePreferred domains).length then
        .ok ((availablePreferred domains).get
              ⟨cursor % (availablePreferred domains).length, Nat.mod_lt cursor h1⟩,
            (cursor + 1) % (availablePreferred domains).length)
      else
        .ok ((listDomainStrings domains).get
              ⟨cursor % (listDomainStrings domains).length,
                Nat.mod_lt cursor (Nat.pos_of_ne_zero h0)⟩,
            (cursor + 1) % (listDomainStrings domains).length)

/-- The candidate list a no-preference pick rotates over: the available
preferred subset when non-empty, the full catalog list otherwise. -/
def pickCandidates (domains : List DomainEntry) : List String :=
  if (availablePreferred domains).length = 0 then listDomainStrings domains
  else availablePreferred domains

/-- C1: a single rotation pick with cursor `C` over a non-empty candidate
list of length `L` selects `candidates[C % L]` and leaves the shared
cursor at `(C + 1) % L`; the candidate list is the available preferred
subset when that subset is non-empty, and the full catalog list
otherwise. -/
theorem pickMailTmDomain_rotation_c1 (domains : List DomainEntry) (cursor : Nat)
    (hdom : domains ≠ []) (hstr : listDomainStrings domains ≠ []) :
    ∃ selected : String,
      pickMailTmDomain domains none cursor =
        .ok (selected, (cursor + 1) % (pickCandidates domains).length) ∧
      (pickCandidates domains).get? (cursor % (pickCandidates domains).length) =
        some selected := by
  have hdl : ¬ (domains.length = 0) := by
    simpa [List.length_eq_zero] using hdom
  have hsl : ¬ ((listDomainStrings domains).length = 0) := by
    simpa [List.length_eq_zero] using hstr
  by_cases h1 : 0 < (availablePreferred domains).length
  · have hcand : pickCandidates domains = availablePreferred domains := by
      unfold pickCandidates
      rw [if_neg (by omega)]
    refine ⟨(availablePreferred domains).get
      ⟨cursor % (availablePreferred domains).length, Nat.mod_lt cursor h1⟩, ?_, ?_⟩
    · unfold pickMailTmDomain
      rw [if_neg hdl, dif_neg hsl, hcand]
      simp only [dif_pos h1]
    · rw [hcand]
      exact List.get?_eq_get _
  · have hcand : pickCandidates domains = listDomainStrings domains := by
      unfold pickCandidates
      rw [if_pos (by omega)]
    refine ⟨(listDomainStrings domains).get
      ⟨cursor % (listDomainStrings domains).length,
        Nat.mod_lt cursor (Nat.pos_of_ne_zero hsl)⟩, ?_, ?_⟩
    · unfold pickMailTmDomain
      rw [if_neg hdl, dif_neg hsl, hcand]
      simp only [dif_neg h1]
    · rw [hcand]
      exact List.get?_eq_get _

/-- Witness for C1: a concrete catalog with one preferred and one general
domain; with cursor 5 over the singleton preferred subset, the pick
selects index `5 % 1 = 0` and leaves the cursor at `6 % 1 = 0`. -/
theorem pickMailTmDomain_rotation_c1_witness :
    ∃ selected : String,
      pickMailTmDomain [.str "zzz.example", .str "comfythings.com"] none 5 =
        .ok (selected,
          (5 + 1) % (pickCandidates [.str "zzz.example", .str "comfythings.com"]).length) ∧
      (pickCandidates [.str "zzz.example", .str "comfythings.com"]).get?
          (5 % (pickCandidates [.str "zzz.example", .str "comfythings.com"]).length) =
        some selected :=
  pickMailTmDomain_rotation_c1 [.str "zzz.example", .str "comfythings.com"] 5
    (by decide) (by decide)

/-! ### Mailbox registry -/

/-- Mailbox TTL in minutes. -/
def MAILBOX_TTL_MINUTES : Nat := 15

/-- Mailbox TTL in milliseconds (`dayjs().add(15, "minute")`). -/
def MAILBOX_TTL_MS : Nat := MAILBOX_TTL_MINUTES * 60 * 1000

/-- The record stored in the `mailboxes` map for each mailbox id.  The
credential fields (`password`, `accountId`, `token`, `tokenExpiresAt`,
`refreshToken`) come from provisioning; the rest is registry metadata. -/
structure Mailbox where
  mailboxId : String
  address : String
  domain : String
  createdAt : Nat
  expiresAt : Nat
  password : String
  accountId : String
  token : Option String
  tokenExpiresAt : Nat
  refreshToken : Option String
  lastMessageCount : Nat
deriving DecidableEq

/-- The record `buildMailboxResponse` serializes for the route layer: only
these six fields ever reach an API response body. -/
structure MailboxResponse where
  mailboxId : String
  address : String
  domain : String
  createdAt : Nat
  expiresAt : Nat
  messageCount : Nat
deriving DecidableEq

/-- `buildMailboxResponse` (the `lastMessageCount || 0` of the source is
the identity here because the count is a `Nat`, never `undefined`). -/
def buildMailboxResponse (mailbox : Mailbox) : MailboxResponse :=
  { mailboxId := mailbox.mailboxId
    address := mailbox.address
    domain := mailbox.domain
    createdAt := mailbox.createdAt
    expiresAt := mailbox.expiresAt
    messageCount := mailbox.lastMessageCount }

/-- C10: the record handed to the route layer is a function of the six
public fields only — replacing the stored password, account id, auth
token, token expiry and refresh token by anything whatsoever leaves
`buildMailboxResponse` unchanged, so credential material can never reach
an API response body through it. -/
theorem buildMailboxResponse_no_credentials_c10 (mailbox : Mailbox)
    (password accountId : String) (token refreshToken : Option String)
    (tokenExpiresAt : Nat) :
    buildMailboxResponse
      { mailbox with
        password := password
        accountId := accountId
        token := token
        tokenExpiresAt := tokenExpiresAt
        refreshToken := refreshToken } =
    buildMailboxResponse mailbox := rfl

/-- Errors thrown by the registry routes, with their HTTP status hint. -/
structure HttpError where
  status : Nat
  message : String
deriving DecidableEq

/-- `ensureMailbox`: look the id up in the registry; a miss throws 404, an
entry whose `expiresAt` has passed (`dayjs().isAfter`) is evicted and
throws 410, otherwise the mailbox is returned together with the registry
(after the lazy eviction, when one happened). -/
def ensureMailbox (registry : List (String × Mailbox)) (mailboxId : String)
    (now : Nat) : Except HttpError (Mailbox × List (String × Mailbox)) :=
  match registry.lookup mailboxId with
  | none => .error { status := 404, message := "Mailbox not found or expired" }
  | some mailbox =>
    if mailbox.expiresAt < now then
      .error { status := 410, message := "Mailbox expired" }
    else
      .ok (mailbox, registry)

/-- Replace the entry stored under `mailboxId` (the source mutates the
mailbox object held in the `mailboxes` map in place). -/
def storeMailbox (registry : List (String × Mailbox)) (mailboxId : String)
    (mailbox : Mailbox) : List (String × Mailbox) :=
  registry.map (fun entry => if entry.1 == mailboxId then (entry.1, mailbox) else entry)

/-- The extend route (`POST /api/mailboxes/:mailboxId/extend`): ensure the
mailbox, overwrite its `expiresAt` with `now + 15min`, and respond with
`buildMailboxResponse` of the updated record. -/
def extendMailbox (registry : List (String × Mailbox)) (mailboxId : String)
    (now : Nat) : Except HttpError (MailboxResponse × List (String × Mailbox)) :=
  match ensureMailbox registry mailboxId now with
  | .error e => .error e
  | .ok (mailbox, registry1) =>
    let updated := { mailbox with expiresAt := now + MAILBOX_TTL_MS }
    .ok (buildMailboxResponse updated, storeMailbox registry1 mailboxId updated)

/-- C9: for every registered, non-expired mailbox, the extend route resets
`expiresAt` to exactly `now + 15min`; the previous `expiresAt` does not
appear in the result at all (absolute reset, not additive). -/
theorem extendMailbox_absolute_reset_c9 (registry : List (String × Mailbox))
    (mailboxId : String) (now : Nat) (mailbox : Mailbox)
    (hfound : registry.lookup mailboxId = some mailbox)
    (hlive : ¬ mailbox.expiresAt < now) :
    extendMailbox registry mailboxId now =
      .ok (buildMailboxResponse { mailbox with expiresAt := now + MAILBOX_TTL_MS },
        storeMailbox registry mailboxId
          { mailbox with expiresAt := now + MAILBOX_TTL_MS }) ∧
    (buildMailboxResponse
        { mailbox with expiresAt := now + MAILBOX_TTL_MS }).expiresAt =
      now + MAILBOX_TTL_MS := by
  constructor
  · unfold extendMailbox ensureMailbox
    rw [hfound]
    simp only [if_neg hlive]
  · rfl

/-- Concrete mailbox for the C9 witness: 9 minutes of lifetime left at
`now = 600000`. -/
def c9Box : Mailbox :=
  { mailboxId := "box1", address := "u@d", domain := "d", createdAt := 0,
    expiresAt := 1140000, password := "p", accountId := "a",
    token := some "t", tokenExpiresAt := 0, refreshToken := none,
    lastMessageCount := 2 }

/-- Registry for the C9 witness. -/
def c9Registry : List (String × Mailbox) := [("box1", c9Box)]

/-- Witness for C9: extending the concrete mailbox at `now = 600000`
resets the expiry to `600000 + 900000`, not to the old expiry plus 15
minutes. -/
theorem extendMailbox_absolute_reset_c9_witness :
    extendMailbox c9Registry "box1" 600000 =
      .ok (buildMailboxResponse { c9Box with expiresAt := 600000 + MAILBOX_TTL_MS },
        storeMailbox c9Registry "box1"
          { c9Box with expiresAt := 600000 + MAILBOX_TTL_MS }) ∧
    (buildMailboxResponse
        { c9Box with expiresAt := 600000 + MAILBOX_TTL_MS }).expiresAt =
      600000 + MAILBOX_TTL_MS :=
  extendMailbox_absolute_reset_c9 c9Registry "box1" 600000 c9Box (by decide)
    (by decide)

/-! ### Inbox retrieval: `fetchMailboxMessages`

The summary list request yields `members`; one detail request is issued
per summary (through `Promise.allSettled`, which preserves order), so the
input here is the settled detail result aligned with the summaries. -/

/-- The `html` field of a provider message: an array of fragments, a
string, or absent. -/
inductive JsHtml
  | arr (parts : List String)
  | str (s : String)
  | nullish
deriving DecidableEq

/-- A raw message detail as returned by `GET /messages/{id}`.  The `from`
object is flattened into its two optional fields (an absent `from` gives
two absent fields, which `from?.address`/`from?.name` cannot
distinguish). -/
structure RawMessage where
  id : String
  fromAddress : Option String
  fromName : Option String
  subject : Option String
  text : Option String
  intro : Option String
  html : JsHtml
  seen : Bool
  createdAt : String
deriving DecidableEq

/-- The flat record the backend returns for one message. -/
structure NormalizedMessage where
  id : String
  fromDisplay : String
  subject : String
  body : String
  html : String
  intro : Option String
  seen : Bool
  receivedAt : String
deriving DecidableEq

/-- Normalization of one successful detail result (`fromDisplay` embeds
the source's `from` field, which is a reserved word here):
`from?.address || from?.name || "unknown"`, `subject || "(no subject)"`,
`text || intro || ""`, html fragments joined, `createdAt` as
`receivedAt`. -/
def normalizeMessage (message : RawMessage) : NormalizedMessage :=
  { id := message.id
    fromDisplay :=
      ((strTruthy message.fromAddress).or (strTruthy message.fromName)).getD "unknown"
    subject := (strTruthy message.subject).getD "(no subject)"
    body := ((strTruthy message.text).or (strTruthy message.intro)).getD ""
    html :=
      match message.html with
      | .arr parts => String.join parts
      | .str s => s
      | .nullish => ""
    intro := message.intro
    seen := message.seen
    receivedAt := message.createdAt }

/-- One settled entry of the `Promise.allSettled` result over the detail
requests. -/
inductive SettledDetail
  | fulfilled (value : RawMessage)
  | rejected (e : ReqError)
deriving DecidableEq

/-- `fetchMailboxMessages` after the summary listing: keep the fulfilled
detail results (the source filters on `status === "fulfilled"` and maps to
`.value`), normalize each, record the count (`mailbox.lastMessageCount`). -/
def fetchMailboxMessages (detailed : List SettledDetail) :
    List NormalizedMessage × Nat :=
  let successfulMessages := detailed.filterMap
    (fun r => match r with
      | .fulfilled value => some value
      | .rejected _ => none)
  let normalized := successfulMessages.map normalizeMessage
  (normalized, normalized.length)

/-- C8: the returned inbox is exactly the normalized records of the detail
calls that succeeded, in the summaries' order — a rejected detail call
anywhere in the list is dropped without affecting anything else, a
fulfilled one contributes its normalized record in place; in particular,
with 3 summaries of which the middle detail call fails, exactly the 2
successful normalized messages come back, not an error. -/
theorem fetchMailboxMessages_partial_c8 :
    (∀ (pre post : List SettledDetail) (e : ReqError),
      (fetchMailboxMessages (pre ++ .rejected e :: post)).1 =
        (fetchMailboxMessages pre).1 ++ (fetchMailboxMessages post).1) ∧
    (∀ (value : RawMessage) (rest : List SettledDetail),
      (fetchMailboxMessages (.fulfilled value :: rest)).1 =
        normalizeMessage value :: (fetchMailboxMessages rest).1) ∧
    (∀ (m1 m2 : RawMessage) (e : ReqError),
      fetchMailboxMessages [.fulfilled m1, .rejected e, .fulfilled m2] =
        ([normalizeMessage m1, normalizeMessage m2], 2)) := by
  refine ⟨?_, ?_, ?_⟩
  · intro pre post e
    simp [fetchMailboxMessages, List.filterMap_append]
  · intro value rest
    simp [fetchMailboxMessages]
  · intro m1 m2 e
    simp [fetchMailboxMessages]

/-! ### Provisioning engine: the domain trial loop

The no-explicit-domain branch of `provisionMailboxWithMailTm` walks up to
`min(len, 15)` domains starting at `domainRotationIndex % len`, trying
each domain up to 2 times.  One attempt (`POST /accounts` followed by
`POST /token`) is modelled by an oracle indexed by `(domainOffset,
attempt)`; `.created` means both calls succeeded (carrying the account id
and the authentication result), `.failed` carries the status and parsed
error body of whichever call threw.  Random local parts and passwords come
from a generator oracle with the same indexing. -/

/-- Result of `authenticateMailTm`: token fields plus the computed
absolute expiry. -/
structure AuthResult where
  token : Option String
  refreshToken : Option String
  tokenExpiresAt : Nat
deriving DecidableEq

/-- Outcome of one account-creation attempt against one domain. -/
inductive AttemptResult
  | created (accountId : String) (auth : AuthResult)
  | failed (status : Nat) (detail message : Option String)
deriving DecidableEq

/-- The credential record a successful provisioning returns. -/
structure MailTmCredential where
  accountId : String
  address : String
  domain : String
  password : String
  token : Option String
  tokenExpiresAt : Nat
  refreshToken : Option String
deriving DecidableEq

/-- Characters up to (excluding) the next `@`. -/
def upToAt : List Char → List Char
  | [] => []
  | c :: cs => if c = '@' then [] else c :: upToAt cs

/-- The piece between the first `@` and the following `@` or the end —
`split("@")[1]`, absent when the string contains no `@`. -/
def afterFirstAt : List Char → Option (List Char)
  | [] => none
  | c :: cs => if c = '@' then some (upToAt cs) else afterFirstAt cs

/-- `address.split("@")[1] || domain`: the second split piece, the
original domain when the address has no `@` or an empty second piece. -/
def actualDomainOf (address fallback : String) : String :=
  match afterFirstAt address.data with
  | some d => if String.mk d = "" then fallback else String.mk d
  | none => fallback

/-- The rate-limit heuristic on a 422 body: `error.data?.detail` or
`error.data?.message` contains `"rate"` or `"limit"`. -/
def rateLimit422 (detail message : Option String) : Bool :=
  optIncludes detail "rate" || optIncludes detail "limit" ||
    optIncludes message "rate" || optIncludes message "limit"

/-- Result of the up-to-2-attempts inner loop on one domain. -/
inductive InnerRes
  | success (cred : MailTmCredential)
  | moveOn (rateLimited : Bool)
deriving DecidableEq

/-- The inner attempt loop on one domain (`for attempt < 2`): a created
account (plus authentication) succeeds; a 5xx, a 429, or a rate-flavored
422 moves to the next domain (the latter two marking it rate-limited); a
400/409 regenerates the local part and retries the same domain within the
attempt budget; anything else moves on.  `fuel` counts the remaining
attempts (initially 2). -/
def tryDomainAttempts (domain : String) (oracle : Nat → AttemptResult)
    (gen : Nat → String × String) : Nat → Nat → InnerRes
  | 0, _ => .moveOn false
  | fuel + 1, attempt =>
    match oracle attempt with
    | .created accountId auth =>
      .success
        { accountId := accountId
          address := (gen attempt).1 ++ "@" ++ domain
          domain := actualDomainOf ((gen attempt).1 ++ "@" ++ domain) domain
          password := (gen attempt).2
          token := auth.token
          tokenExpiresAt := auth.tokenExpiresAt
          refreshToken := auth.refreshToken }
    | .failed status detail message =>
      if 500 ≤ status then .moveOn false
      else if status = 429 then .moveOn true
      else if status = 422 ∧ rateLimit422 detail message = true then .moveOn true
      else if status = 400 ∨ status = 409 then
        tryDomainAttempts domain oracle gen fuel (attempt + 1)
      else .moveOn false

/-- Result of one provisioning run, instrumented with the rotation cursor
it leaves behind and the final rate-limited-domain count. -/
inductive ProvisionResult
  | ok (cred : MailTmCredential) (newCursor rateLimitedDomains : Nat)
  | exhausted (message : String) (newCursor rateLimitedDomains : Nat)
  | noDomains
deriving DecidableEq

/-- Exhaustion message, "mostly rate-limited" flavor. -/
def msgAllRateLimited : String :=
  "Unable to allocate mailbox. All domains are currently rate-limited. Please wait a few seconds and try again."

/-- Exhaustion message, general-unavailability flavor. -/
def msgGeneralUnavailable : String :=
  "Unable to allocate mailbox at this time. The email service may be temporarily unavailable. Please try again in a few moments."

/-- The outer domain loop (`for domainOffset < maxDomainsToTry`): `fuel`
counts the remaining domain offsets (initially `min(len, 15)`).  A success
advances the shared cursor once and returns; when every domain is
exhausted the cursor is advanced once anyway and the run fails with a
message chosen by whether at least `maxDomainsToTry - 2` domains were
rate-limited. -/
def provisionTrialLoop (domainsToTry : List String) (entryCursor : Nat)
    (oracle : Nat → Nat → AttemptResult) (gen : Nat → Nat → String × String) :
    Nat → Nat → Nat → ProvisionResult
  | 0, _, rateLimitedDomains =>
    .exhausted
      (if min domainsToTry.length 15 - 2 ≤ rateLimitedDomains then
        msgAllRateLimited
      else msgGeneralUnavailable)
      ((entryCursor + 1) % domainsToTry.length) rateLimitedDomains
  | fuel + 1, domainOffset, rateLimitedDomains =>
    match tryDomainAttempts
        (domainsToTry.getD
          ((entryCursor % domainsToTry.length + domainOffset) % domainsToTry.length)
          "")
        (oracle domainOffset) (gen domainOffset) 2 0 with
    | .success cred =>
      .ok cred ((entryCursor + 1) % domainsToTry.length) rateLimitedDomains
    | .moveOn rateLimited =>
      provisionTrialLoop domainsToTry entryCursor oracle gen fuel
        (domainOffset + 1)
        (rateLimitedDomains + if rateLimited then 1 else 0)

/-- The no-explicit-domain branch of `provisionMailboxWithMailTm`, from
the trial loop on: fails fast when the (already reordered) trial list is
empty, otherwise walks up to `min(len, 15)` domains from the shared
cursor. -/
def provisionMailboxWithMailTm (domainsToTry : List String) (entryCursor : Nat)
    (oracle : Nat → Nat → AttemptResult) (gen : Nat → Nat → String × String) :
    ProvisionResult :=
  if domainsToTry.length = 0 then .noDomains
  else
    provisionTrialLoop domainsToTry entryCursor oracle gen
      (min domainsToTry.length 15) 0 0

/-- C5: in no-explicit-domain provisioning, when the first trial domain
answers 429, the second answers 429, and the third attempt creates an
account (with its authentication), the run succeeds using the third trial
domain, exactly two domains are counted rate-limited, and the shared
cursor advances by one.  (`hsplit` records that the generated local part
contains no `@`, so splitting the address it builds gives the domain
back — true of the source generator, which draws from `[a-z0-9]`.) -/
theorem provision_third_domain_c5 (domainsToTry : List String) (cursor : Nat)
    (oracle : Nat → Nat → AttemptResult) (gen : Nat → Nat → String × String)
    (d0 m0 d1 m1 : Option String) (accountId : String) (auth : AuthResult)
    (hlen : 3 ≤ domainsToTry.length)
    (h0 : oracle 0 0 = .failed 429 d0 m0)
    (h1 : oracle 1 0 = .failed 429 d1 m1)
    (h2 : oracle 2 0 = .created accountId auth)
    (hsplit :
      actualDomainOf
          ((gen 2 0).1 ++ "@" ++
            domainsToTry.getD
              ((cursor % domainsToTry.length + 2) % domainsToTry.length) "")
          (domainsToTry.getD
            ((cursor % domainsToTry.length + 2) % domainsToTry.length) "") =
        domainsToTry.getD
          ((cursor % domainsToTry.length + 2) % domainsToTry.length) "") :
    provisionMailboxWithMailTm domainsToTry cursor oracle gen =
      .ok
        { accountId := accountId
          address :=
            (gen 2 0).1 ++ "@" ++
              domainsToTry.getD
                ((cursor % domainsToTry.length + 2) % domainsToTry.length) ""
          domain :=
            domainsToTry.getD
              ((cursor % domainsToTry.length + 2) % domainsToTry.length) ""
          password := (gen 2 0).2
          token := auth.token
          tokenExpiresAt := auth.tokenExpiresAt
          refreshToken := auth.refreshToken }
        ((cursor + 1) % domainsToTry.length) 2 := by
  have hlen0 : ¬ (domainsToTry.length = 0) := by omega
  obtain ⟨k, hk⟩ : ∃ k, min domainsToTry.length 15 = k + 3 :=
    ⟨min domainsToTry.length 15 - 3, by omega⟩
  unfold provisionMailboxWithMailTm
  rw [if_neg hlen0, hk]
  simp only [provisionTrialLoop, tryDomainAttempts, h0, h1, h2]
  norm_num
  simpa using hsplit

/-- Oracle for the C5 witness: 429 on the first two domains, a created
account on the third. -/
def c5Oracle : Nat → Nat → AttemptResult := fun domainOffset _ =>
  if domainOffset = 0 then .failed 429 none none
  else if domainOffset = 1 then .failed 429 none none
  else .created "acct" { token := some "tok", refreshToken := none, tokenExpiresAt := 99 }

/-- Generator for the C5 witness. -/
def c5Gen : Nat → Nat → String × String := fun _ _ => ("user", "pw")

/-- Witness for C5 on a concrete three-domain trial list with cursor 0. -/
theorem provision_third_domain_c5_witness :
    provisionMailboxWithMailTm ["a.com", "b.com", "c.com"] 0 c5Oracle c5Gen =
      .ok
        { accountId := "acct", address := "user@c.com", domain := "c.com",
          password := "pw", token := some "tok", tokenExpiresAt := 99,
          refreshToken := none } 1 2 := by
  have h := provision_third_domain_c5 ["a.com", "b.com", "c.com"] 0 c5Oracle c5Gen
    none none none none "acct"
    { token := some "tok", refreshToken := none, tokenExpiresAt := 99 }
    (by decide) rfl rfl rfl (by decide)
  exact h.trans (by decide)

/-- Shift of a `countP` over `List.range` by one position. -/
theorem countP_range_succ_shift (f : Nat → Bool) (fuel offset : Nat) :
    (List.range (fuel + 1)).countP (fun k => f (offset + k)) =
      (if f offset then 1 else 0) +
        (List.range fuel).countP (fun k => f (offset + 1 + k)) := by
  rw [List.range_succ_eq_map, List.countP_cons, List.countP_map]
  have hcongr :
      (List.range fuel).countP ((fun k => f (offset + k)) ∘ Nat.succ) =
        (List.range fuel).countP (fun k => f (offset + 1 + k)) := by
    apply List.countP_congr
    intro a _
    have harg : offset + Nat.succ a = offset + 1 + a := by omega
    simp [Function.comp, harg]
  rw [hcongr]
  by_cases hf : f offset
  · simp [hf, Nat.add_comm]
  · simp [hf]

/-- When every remaining domain offset moves on (no success), the trial
loop exhausts, advancing the cursor once and accumulating exactly the
per-domain rate-limited flags into the final count. -/
theorem provisionTrialLoop_exhaust (domainsToTry : List String) (cursor : Nat)
    (oracle : Nat → Nat → AttemptResult) (gen : Nat → Nat → String × String)
    (rl : Nat → Bool) :
    ∀ fuel domainOffset acc : Nat,
      (∀ k, k < fuel →
        tryDomainAttempts
            (domainsToTry.getD
              ((cursor % domainsToTry.length + (domainOffset + k)) %
                domainsToTry.length) "")
            (oracle (domainOffset + k)) (gen (domainOffset + k)) 2 0 =
          .moveOn (rl (domainOffset + k))) →
      provisionTrialLoop domainsToTry cursor oracle gen fuel domainOffset acc =
        .exhausted
          (if min domainsToTry.length 15 - 2 ≤
              acc + (List.range fuel).countP (fun k => rl (domainOffset + k)) then
            msgAllRateLimited
          else msgGeneralUnavailable)
          ((cursor + 1) % domainsToTry.length)
          (acc + (List.range fuel).countP (fun k => rl (domainOffset + k))) := by
  intro fuel
  induction fuel with
  | zero =>
    intro domainOffset acc _
    simp [provisionTrialLoop]
  | succ fuel ih =>
    intro domainOffset acc h
    have h0 : tryDomainAttempts
        (domainsToTry.getD
          ((cursor % domainsToTry.length + domainOffset) % domainsToTry.length) "")
        (oracle domainOffset) (gen domainOffset) 2 0 = .moveOn (rl domainOffset) := by
      simpa using h 0 (by omega)
    have hrest : ∀ k, k < fuel →
        tryDomainAttempts
            (domainsToTry.getD
              ((cursor % domainsToTry.length + (domainOffset + 1 + k)) %
                domainsToTry.length) "")
            (oracle (domainOffset + 1 + k)) (gen (domainOffset + 1 + k)) 2 0 =
          .moveOn (rl (domainOffset + 1 + k)) := by
      intro k hkm
      have hx := h (k + 1) (by omega)
      have harg : domainOffset + (k + 1) = domainOffset + 1 + k := by omega
      rwa [harg] at hx
    have hcount :
        acc + (if rl domainOffset then 1 else 0) +
            (List.range fuel).countP (fun k => rl (domainOffset + 1 + k)) =
          acc + (List.range (fuel + 1)).countP (fun k => rl (domainOffset + k)) := by
      rw [countP_range_succ_shift]
      omega
    simp only [provisionTrialLoop, h0]
    rw [ih (domainOffset + 1) (acc + if rl domainOffset then 1 else 0) hrest,
      hcount]

/-- C6: when the whole trial sequence is exhausted without a success, the
shared rotation cursor is still advanced by one, the rate-limited count is
exactly the number of trial offsets flagged rate-limited, and the message
is the "mostly rate-limited" variant exactly when that count is at least
`trialCount - 2` (with `trialCount = min(len, 15)`), and the general
unavailability variant otherwise. -/
theorem provision_exhaustion_c6 (domainsToTry : List String) (cursor : Nat)
    (oracle : Nat → Nat → AttemptResult) (gen : Nat → Nat → String × String)
    (rl : Nat → Bool) (hne : domainsToTry.length ≠ 0)
    (hall : ∀ domainOffset, domainOffset < min domainsToTry.length 15 →
      tryDomainAttempts
          (domainsToTry.getD
            ((cursor % domainsToTry.length + domainOffset) % domainsToTry.length) "")
          (oracle domainOffset) (gen domainOffset) 2 0 =
        .moveOn (rl domainOffset)) :
    provisionMailboxWithMailTm domainsToTry cursor oracle gen =
      .exhausted
        (if min domainsToTry.length 15 - 2 ≤
            (List.range (min domainsToTry.length 15)).countP rl then
          msgAllRateLimited
        else msgGeneralUnavailable)
        ((cursor + 1) % domainsToTry.length)
        ((List.range (min domainsToTry.length 15)).countP rl) := by
  unfold provisionMailboxWithMailTm
  rw [if_neg hne]
  have h := provisionTrialLoop_exhaust domainsToTry cursor oracle gen rl
    (min domainsToTry.length 15) 0 0 (by simpa using hall)
  simpa using h

/-- Witness for C6: three domains all answering 429; all three get
counted, the message is the rate-limited variant, and the cursor moves
from 0 to 1. -/
theorem provision_exhaustion_c6_witness :
    provisionMailboxWithMailTm ["a.com", "b.com", "c.com"] 0
        (fun _ _ => .failed 429 none none) (fun _ _ => ("user", "pw")) =
      .exhausted msgAllRateLimited 1 3 := by
  have h := provision_exhaustion_c6 ["a.com", "b.com", "c.com"] 0
    (fun _ _ => .failed 429 none none) (fun _ _ => ("user", "pw"))
    (fun _ => true) (by decide) (by intro off hoff; rfl)
  simpa using h

/-! ### Preferred-domain priority reordering

The no-explicit-domain branch of `provisionMailboxWithMailTm` first sorts
the trial list with `(a, b) => a.toLowerCase().localeCompare(b.toLowerCase())`
(a stable sort, modelled by insertion sort over a code-point comparison of
the lowercased strings), then runs nine find-splice-unshift passes moving
`comfythings.com`, `badfist.com`, `besenica.com`, `asia-mail.com`,
`doer.sbs`, `ekii.de`, `ketoblisslabs.com`, `elyxstore.com` and `mail.tm`
— in that order — to the front. -/

/-- Code-point lexicographic comparison of character lists. -/
def charListLe : List Char → List Char → Bool
  | [], _ => true
  | _ :: _, [] => false
  | a :: as, b :: bs =>
    if a.toNat < b.toNat then true
    else if b.toNat < a.toNat then false
    else charListLe as bs

/-- The sort pass comparator: lowercased strings compared
lexicographically. -/
def domLe (a b : String) : Prop :=
  charListLe (strLower a).data (strLower b).data = true

instance : DecidableRel domLe := fun _ _ =>
  inferInstanceAs (Decidable (_ = true))

theorem charListLe_total : ∀ as bs : List Char,
    charListLe as bs = true ∨ charListLe bs as = true
  | [], _ => Or.inl rfl
  | _ :: _, [] => Or.inr rfl
  | a :: as, b :: bs => by
    rcases Nat.lt_trichotomy a.toNat b.toNat with h | h | h
    · left
      simp [charListLe, h]
    · rcases charListLe_total as bs with ih | ih
      · left
        simp [charListLe, h, ih]
      · right
        simp [charListLe, h, ih]
    · right
      simp [charListLe, h]

theorem charListLe_trans : ∀ as bs cs : List Char,
    charListLe as bs = true → charListLe bs cs = true → charListLe as cs = true
  | [], _, _, _, _ => rfl
  | _ :: _, [], _, h1, _ => by simp [charListLe] at h1
  | _ :: _, _ :: _, [], _, h2 => by simp [charListLe] at h2
  | a :: as, b :: bs, c :: cs, h1, h2 => by
    rcases Nat.lt_trichotomy a.toNat b.toNat with hab | hab | hab
    · rcases Nat.lt_trichotomy b.toNat c.toNat with hbc | hbc | hbc
      · simp [charListLe, show a.toNat < c.toNat from by omega]
      · simp [charListLe, show a.toNat < c.toNat from by omega]
      · simp [charListLe, show ¬ b.toNat < c.toNat from by omega, hbc] at h2
    · rcases Nat.lt_trichotomy b.toNat c.toNat with hbc | hbc | hbc
      · simp [charListLe, show a.toNat < c.toNat from by omega]
      · simp only [charListLe, if_neg (show ¬ a.toNat < b.toNat from by omega),
          if_neg (show ¬ b.toNat < a.toNat from by omega)] at h1
        simp only [charListLe, if_neg (show ¬ b.toNat < c.toNat from by omega),
          if_neg (show ¬ c.toNat < b.toNat from by omega)] at h2
        simp only [charListLe, if_neg (show ¬ a.toNat < c.toNat from by omega),
          if_neg (show ¬ c.toNat < a.toNat from by omega)]
        exact charListLe_trans as bs cs h1 h2
      · simp [charListLe, show ¬ b.toNat < c.toNat from by omega, hbc] at h2
    · simp [charListLe, show ¬ a.toNat < b.toNat from by omega, hab] at h1

theorem charListLe_antisymm : ∀ as bs : List Char,
    charListLe as bs = true → charListLe bs as = true → as = bs
  | [], [], _, _ => rfl
  | [], _ :: _, _, h2 => by simp [charListLe] at h2
  | _ :: _, [], h1, _ => by simp [charListLe] at h1
  | a :: as, b :: bs, h1, h2 => by
    rcases Nat.lt_trichotomy a.toNat b.toNat with hab | hab | hab
    · simp [charListLe, show ¬ b.toNat < a.toNat from by omega, hab] at h2
    · have hchar : a = b := by
        apply Char.eq_of_val_eq
        apply UInt32.ext
        exact hab
      simp only [charListLe, if_neg (show ¬ a.toNat < b.toNat from by omega),
        if_neg (show ¬ b.toNat < a.toNat from by omega)] at h1 h2
      rw [hchar, charListLe_antisymm as bs h1 h2]
    · simp [charListLe, show ¬ a.toNat < b.toNat from by omega, hab] at h1

instance : IsTotal String domLe :=
  ⟨fun a b => charListLe_total (strLower a).data (strLower b).data⟩

instance : IsTrans String domLe :=
  ⟨fun _ _ _ h1 h2 => charListLe_trans _ _ _ h1 h2⟩

/-- Two strings with identical character data are equal. -/
theorem string_eq_of_data_eq : ∀ {s t : String}, s.data = t.data → s = t := by
  intro s t h
  cases s
  cases t
  exact congrArg String.mk h

/-- The sort of the reorder pass: stable, comparing lowercased strings. -/
def sortDomains (l : List String) : List String := l.insertionSort domLe

/-- `orderedInsert` commutes for two elements the comparator orders
strictly. -/
theorem orderedInsert_comm_of_lt (x y : String) (hxy : domLe x y)
    (hnyx : ¬ domLe y x) :
    ∀ t : List String,
      List.orderedInsert domLe x (List.orderedInsert domLe y t) =
        List.orderedInsert domLe y (List.orderedInsert domLe x t)
  | [] => by simp [List.orderedInsert, hxy, hnyx]
  | z :: t => by
    by_cases hyz : domLe y z
    · have hxz : domLe x z := charListLe_trans _ _ _ hxy hyz
      simp [List.orderedInsert, hxy, hnyx, hyz, hxz]
    · by_cases hxz : domLe x z
      · simp [List.orderedInsert, hxy, hnyx, hyz, hxz]
      · simp [List.orderedInsert, hxy, hnyx, hyz, hxz,
          orderedInsert_comm_of_lt x y hxy hnyx t]

/-- `orderedInsert` commutes for two elements whose lowercased forms
differ (the comparator then orders them strictly one way or the other). -/
theorem orderedInsert_comm (x y : String) (hne : strLower x ≠ strLower y)
    (t : List String) :
    List.orderedInsert domLe x (List.orderedInsert domLe y t) =
      List.orderedInsert domLe y (List.orderedInsert domLe x t) := by
  by_cases hxy : domLe x y
  · by_cases hyx : domLe y x
    · exact absurd (string_eq_of_data_eq (charListLe_antisymm _ _ hxy hyx)) hne
    · exact orderedInsert_comm_of_lt x y hxy hyx t
  · have hyx : domLe y x := (charListLe_total _ _).resolve_left hxy
    exact (orderedInsert_comm_of_lt y x hyx hxy t).symm

/-- `findIndex` + `splice`: locate the first entry whose lowercased form
equals `target`, returning it together with the list with that entry
removed; `none` when no entry matches. -/
def extractFirst (target : String) : List String → Option (String × List String)
  | [] => none
  | x :: xs =>
    if strLower x = target then some (x, xs)
    else
      match extractFirst target xs with
      | some (y, ys) => some (y, x :: ys)
      | none => none

/-- One find-splice-unshift pass of the source: move the first entry
matching `target` (case-insensitively) to the front, leave the list alone
when none matches. -/
def moveToFront (target : String) (l : List String) : List String :=
  match extractFirst target l with
  | some (y, ys) => y :: ys
  | none => l

theorem extractFirst_key (target : String) :
    ∀ (l : List String) (y : String) (ys : List String),
      extractFirst target l = some (y, ys) → strLower y = target := by
  intro l
  induction l with
  | nil => intro y ys h; simp [extractFirst] at h
  | cons x xs ih =>
    intro y ys h
    by_cases hx : strLower x = target
    · simp only [extractFirst, if_pos hx, Option.some.injEq, Prod.mk.injEq] at h
      rw [← h.1]
      exact hx
    · simp only [extractFirst, if_neg hx] at h
      cases hext : extractFirst target xs with
      | none => rw [hext] at h; simp at h
      | some p =>
        obtain ⟨y2, ys2⟩ := p
        rw [hext] at h
        simp only [Option.some.injEq, Prod.mk.injEq] at h
        rw [← h.1]
        exact ih y2 ys2 hext

theorem extractFirst_perm (target : String) :
    ∀ (l : List String) (y : String) (ys : List String),
      extractFirst target l = some (y, ys) → l.Perm (y :: ys) := by
  intro l
  induction l with
  | nil => intro y ys h; simp [extractFirst] at h
  | cons x xs ih =>
    intro y ys h
    by_cases hx : strLower x = target
    · simp only [extractFirst, if_pos hx, Option.some.injEq, Prod.mk.injEq] at h
      rw [← h.1, ← h.2]
    · simp only [extractFirst, if_neg hx] at h
      cases hext : extractFirst target xs with
      | none => rw [hext] at h; simp at h
      | some p =>
        obtain ⟨y2, ys2⟩ := p
        rw [hext] at h
        simp only [Option.some.injEq, Prod.mk.injEq] at h
        rw [← h.1, ← h.2]
        exact ((ih y2 ys2 hext).cons x).trans (List.Perm.swap y2 x ys2)

/-- Permutations see the same `any`. -/
theorem any_congr_perm {α : Type} {l1 l2 : List α} (h : l1.Perm l2)
    (p : α → Bool) : l1.any p = l2.any p := by
  cases h1 : l1.any p
  · cases h2 : l2.any p
    · rfl
    · exfalso
      rw [List.any_eq_true] at h2
      obtain ⟨x, hx, hp⟩ := h2
      have hmem : x ∈ l1 := h.mem_iff.mpr hx
      have hcon : l1.any p = true := List.any_eq_true.mpr ⟨x, hmem, hp⟩
      rw [h1] at hcon
      exact Bool.false_ne_true hcon
  · cases h2 : l2.any p
    · exfalso
      rw [List.any_eq_true] at h1
      obtain ⟨x, hx, hp⟩ := h1
      have hmem : x ∈ l2 := h.mem_iff.mp hx
      have hcon : l2.any p = true := List.any_eq_true.mpr ⟨x, hmem, hp⟩
      rw [h2] at hcon
      exact Bool.false_ne_true hcon
    · rfl

theorem extractFirst_none_any (target : String) :
    ∀ l : List String, extractFirst target l = none →
      l.any (fun s => strLower s == target) = false := by
  intro l
  induction l with
  | nil => intro _; rfl
  | cons x xs ih =>
    intro h
    by_cases hx : strLower x = target
    · simp [extractFirst, hx] at h
    · simp only [extractFirst, if_neg hx] at h
      cases hext : extractFirst target xs with
      | some p => rw [hext] at h; simp at h
      | none =>
        simp [List.any_cons, beq_iff_eq, hx, ih hext]

theorem extractFirst_some_any (target : String) (l : List String) (y : String)
    (ys : List String) (h : extractFirst target l = some (y, ys)) :
    l.any (fun s => strLower s == target) = true := by
  rw [any_congr_perm (extractFirst_perm target l y ys h)]
  simp [List.any_cons, beq_iff_eq, extractFirst_key target l y ys h]

theorem extractFirst_append_no_match (target : String) :
    ∀ (f r : List String), (∀ x ∈ f, strLower x ≠ target) →
      extractFirst target (f ++ r) =
        (extractFirst target r).map (fun p => (p.1, f ++ p.2))
  | [], r, _ => by
    cases hext : extractFirst target r <;> simp [hext]
  | x :: f, r, hf => by
    have hx : strLower x ≠ target := hf x (List.mem_cons_self x f)
    simp only [List.cons_append, extractFirst, if_neg hx, List.append_eq]
    rw [extractFirst_append_no_match target f r
      (fun z hz => hf z (List.mem_cons_of_mem _ hz))]
    cases hext : extractFirst target r with
    | none => simp
    | some p => simp

/-- Moving a first-match to the front does not change what a subsequent
stable sort produces: the moved element is the first of its lowercase
class, and `orderedInsert` puts it back exactly where it came from. -/
theorem sortDomains_moveToFront (target : String) :
    ∀ l : List String, sortDomains (moveToFront target l) = sortDomains l
  | [] => rfl
  | x :: xs => by
    by_cases hx : strLower x = target
    · simp [moveToFront, extractFirst, hx]
    · cases hext : extractFirst target xs with
      | none => simp [moveToFront, extractFirst, hx, hext]
      | some p =>
        obtain ⟨y, ys⟩ := p
        have hy : strLower y = target := extractFirst_key target xs y ys hext
        have hmv : moveToFront target (x :: xs) = y :: x :: ys := by
          simp [moveToFront, extractFirst, hx, hext]
        have hxs : List.insertionSort domLe (y :: ys) =
            List.insertionSort domLe xs := by
          have hrec := sortDomains_moveToFront target xs
          rw [show moveToFront target xs = y :: ys from by
            simp [moveToFront, hext]] at hrec
          exact hrec
        have hne : strLower y ≠ strLower x := by
          rw [hy]
          exact fun hcon => hx hcon.symm
        rw [hmv]
        show List.insertionSort domLe (y :: x :: ys) =
          List.insertionSort domLe (x :: xs)
        calc
          List.insertionSort domLe (y :: x :: ys) =
              List.orderedInsert domLe y
                (List.orderedInsert domLe x (List.insertionSort domLe ys)) := rfl
          _ = List.orderedInsert domLe x
                (List.orderedInsert domLe y (List.insertionSort domLe ys)) :=
              orderedInsert_comm y x hne _
          _ = List.orderedInsert domLe x (List.insertionSort domLe (y :: ys)) := rfl
          _ = List.orderedInsert domLe x (List.insertionSort domLe xs) := by
              rw [hxs]
          _ = List.insertionSort domLe (x :: xs) := rfl

/-- The nine find-splice-unshift targets, in the order the source applies
them (so the last one ends up first in the final list). -/
def unshiftTargets : List String :=
  ["comfythings.com", "badfist.com", "besenica.com", "asia-mail.com",
   "doer.sbs", "ekii.de", "ketoblisslabs.com", "elyxstore.com", "mail.tm"]

/-- The chain of the nine unshift passes. -/
def applyUnshifts (l : List String) : List String :=
  unshiftTargets.foldl (fun acc t => moveToFront t acc) l

/-- The whole reorder pass of the no-explicit-domain branch: sort with the
lowercase comparator, then the nine unshift passes. -/
def reorderDomains (l : List String) : List String :=
  applyUnshifts (sortDomains l)

theorem sortDomains_foldl_moveToFront :
    ∀ (ts : List String) (l : List String),
      sortDomains (ts.foldl (fun acc t => moveToFront t acc) l) = sortDomains l
  | [], _ => rfl
  | t :: ts, l => by
    rw [List.foldl_cons, sortDomains_foldl_moveToFront ts (moveToFront t l),
      sortDomains_moveToFront t l]

theorem sortDomains_idem (l : List String) :
    sortDomains (sortDomains l) = sortDomains l :=
  (List.sorted_insertionSort domLe l).insertionSort_eq

/-- The fixed front order the unshift chain produces: the reverse of the
order the passes run in. -/
def priorityFront : List String := unshiftTargets.reverse

/-- The priority names present in `l` (case-insensitively), listed in the
fixed front order. -/
def presentPriority (l : List String) : List String :=
  priorityFront.filter (fun t => l.any (fun s => strLower s == t))

/-- Invariant of the unshift chain: starting from `front ++ rest` where no
front entry matches a remaining target, the chain only prepends — in
reverse pass order — the first `rest` match of each target present, so the
final list is `found.reverse ++ front ++ rest2` with `found` the matched
targets in pass order. -/
theorem foldl_moveToFront_front :
    ∀ ts : List String, ts.Nodup →
      ∀ f r : List String, (∀ x ∈ f, ∀ t ∈ ts, strLower x ≠ t) →
        ∃ g r2,
          ts.foldl (fun acc t => moveToFront t acc) (f ++ r) = g ++ f ++ r2 ∧
          g.map strLower =
            (ts.filter (fun t => r.any (fun s => strLower s == t))).reverse := by
  intro ts
  induction ts with
  | nil =>
    intro _ f r _
    exact ⟨[], r, by simp, by simp⟩
  | cons t ts ih =>
    intro hnd f r hf
    obtain ⟨htn, hndts⟩ := List.nodup_cons.mp hnd
    have hfm : ∀ x ∈ f, strLower x ≠ t :=
      fun x hx => hf x hx t (List.mem_cons_self t ts)
    rw [List.foldl_cons]
    cases hext : extractFirst t r with
    | none =>
      have hmv : moveToFront t (f ++ r) = f ++ r := by
        unfold moveToFront
        rw [extractFirst_append_no_match t f r hfm, hext]
        rfl
      rw [hmv]
      obtain ⟨g, r2, hfold, hmap⟩ :=
        ih hndts f r (fun x hx t2 ht2 => hf x hx t2 (List.mem_cons_of_mem _ ht2))
      refine ⟨g, r2, hfold, ?_⟩
      rw [hmap, List.filter_cons, if_neg]
      simp [extractFirst_none_any t r hext]
    | some p =>
      obtain ⟨y, ys⟩ := p
      have hy : strLower y = t := extractFirst_key t r y ys hext
      have hmv : moveToFront t (f ++ r) = (y :: f) ++ ys := by
        unfold moveToFront
        rw [extractFirst_append_no_match t f r hfm, hext]
        rfl
      rw [hmv]
      have hf2 : ∀ x ∈ (y :: f), ∀ t2 ∈ ts, strLower x ≠ t2 := by
        intro x hx t2 ht2
        rcases List.mem_cons.mp hx with hxy | hxf
        · rw [hxy, hy]
          intro hcon
          rw [hcon] at htn
          exact htn ht2
        · exact hf x hxf t2 (List.mem_cons_of_mem _ ht2)
      obtain ⟨g, r2, hfold, hmap⟩ := ih hndts (y :: f) ys hf2
      refine ⟨g ++ [y], r2, ?_, ?_⟩
      · rw [hfold]
        simp
      · rw [List.map_append, hmap]
        have hfilter :
            ts.filter (fun t2 => ys.any (fun s => strLower s == t2)) =
              ts.filter (fun t2 => r.any (fun s => strLower s == t2)) := by
          apply List.filter_congr
          intro t2 ht2
          rw [any_congr_perm (extractFirst_perm t r y ys hext)]
          have hne : (strLower y == t2) = false := by
            simp only [beq_eq_false_iff_ne, ne_eq, hy]
            intro hcon
            rw [hcon] at htn
            exact htn ht2
          simp [List.any_cons, hne]
        rw [hfilter, List.filter_cons, if_pos]
        · simp [hy]
        · exact extractFirst_some_any t r y ys hext

/-- C2 (amended: the source moves nine named domains to the front, not
eight): the reorder pass is idempotent and deterministic — applying it
twice gives exactly the result of applying it once — and the nine named
priority domains that occur in the input (case-insensitively) occupy the
front of the output, in the one fixed relative order `mail.tm,
elyxstore.com, ketoblisslabs.com, ekii.de, doer.sbs, asia-mail.com,
besenica.com, badfist.com, comfythings.com`, regardless of the input
order. -/
theorem reorderDomains_idem_front_c2 (l : List String) :
    reorderDomains (reorderDomains l) = reorderDomains l ∧
    ((reorderDomains l).take (presentPriority l).length).map strLower =
      presentPriority l := by
  constructor
  · show applyUnshifts (sortDomains (reorderDomains l)) = reorderDomains l
    unfold reorderDomains
    rw [show sortDomains (applyUnshifts (sortDomains l)) = sortDomains l from
      (sortDomains_foldl_moveToFront unshiftTargets (sortDomains l)).trans
        (sortDomains_idem l)]
  · obtain ⟨g, r2, hfold, hmap⟩ :=
      foldl_moveToFront_front unshiftTargets (by decide) [] (sortDomains l)
        (by intro x hx; exact absurd hx (List.not_mem_nil x))
    have hfold2 : reorderDomains l = g ++ r2 := by
      unfold reorderDomains applyUnshifts
      rw [show ([] : List String) ++ sortDomains l = sortDomains l from rfl] at hfold
      rw [hfold]
      simp
    have hmap2 : g.map strLower = presentPriority l := by
      rw [hmap]
      unfold presentPriority priorityFront
      rw [← List.filter_reverse]
      apply List.filter_congr
      intro t _
      exact any_congr_perm (List.perm_insertionSort domLe l) _
    have hlen : (presentPriority l).length = g.length := by
      rw [← hmap2, List.length_map]
    rw [hfold2, hlen, List.take_left, hmap2]

/-- Concrete input for the C2 counterexample: the nine priority domains in
scrambled order plus one general domain that alphabetical order would put
first. -/
def c2Input : List String :=
  ["ketoblisslabs.com", "aaa.com", "mail.tm", "comfythings.com", "doer.sbs",
   "badfist.com", "elyxstore.com", "asia-mail.com", "ekii.de", "besenica.com"]

/-- C2 counterexample: the reorder pass moves nine named priority domains
to the front, not eight — on `c2Input` all nine priority names precede the
lone non-priority entry `aaa.com` (position 9), so it is false that
exactly eight named priority domains appear at the front. -/
theorem reorderDomains_nine_c2_counterexample :
    reorderDomains c2Input =
      ["mail.tm", "elyxstore.com", "ketoblisslabs.com", "ekii.de", "doer.sbs",
       "asia-mail.com", "besenica.com", "badfist.com", "comfythings.com",
       "aaa.com"] ∧
    ((reorderDomains c2Input).take 9).all
        (fun d => DEFAULT_PREFERRED_DOMAINS.contains d) = true ∧
    (reorderDomains c2Input).get? 9 = some "aaa.com" := by
  refine ⟨by decide, by decide, by decide⟩
